import Mathlib

/-!
# Verification of the fish-matrix-bot repository

Shallow embedding of `src/github.ts` and `src/index.ts`:

* the repository-event watcher loop (`GitHub.watchForEvents`),
* the issue resolver (`GitHub.mapGitHubIssue`),
* the issue-number extractor (`extractIssueNumbers`),
* the HTML escaping and message construction in `index.ts`.

Strings are modelled as `List Char` (Unicode code points), JavaScript
timestamps (`Date.getTime()` milliseconds) as `Int`, and the network as an
explicit input: each iteration of the watch loop consumes one `FetchResult`
describing what the GitHub API returned, and the resolver consumes one
`LookupResult`.
-/

/- ## The repository-event watcher (`watchForEvents`, github.ts lines 106-176) -/

/-- One event from the GitHub events feed, as used by `watchForEvents`:
`event.type` (a string, compared against the watch set), `event.id`, and
`new Date(event.created_at).getTime()` modelled directly as a millisecond
timestamp. -/
structure RepoEvent where
  id : Nat
  type : String
  created_at : Int
deriving DecidableEq, Repr

/-- The outcome of one `listRepoEvents` call inside the watch loop:
a successful response carries the page of events, the response `etag`
header and the optional `x-poll-interval` header; `notModified` is the
HTTP 304 path (octokit throws, `error.status == 304`); `failure` is any
other thrown error (logged as a warning). -/
inductive FetchResult where
  | success (events : List RepoEvent) (etag : Option String) (pollHeader : Option Nat)
  | notModified
  | failure
deriving DecidableEq, Repr

/-- The mutable state of one running `watchForEvents` loop: the `epoch`
variable (as milliseconds), the `latest` accumulator, the `etag` caching
token, and `pollInterval` in seconds. -/
structure WatcherState where
  epochMs : Int
  latest : Int
  etag : Option String
  pollInterval : Nat
deriving DecidableEq, Repr

/-- The state set up before the loop:
`latest = epoch.getTime()`, `etag = undefined`, `pollInterval = 0`. -/
def mkInitialState (epochMs : Int) : WatcherState :=
  { epochMs := epochMs, latest := epochMs, etag := none, pollInterval := 0 }

/-- One iteration of the `while (true)` loop body of `watchForEvents`,
after the sleep.  On `notModified` or `failure` the code returns `null`
from the fetch closure and `continue`s: nothing is updated (the
`etag = result.headers.etag` assignment is never reached) and no batch is
yielded.  On success: `etag` is set from the response, `pollInterval` is
re-derived from the `x-poll-interval` header (default 60), `latest` is
folded with `Math.max` over every event timestamp, an event enters the
batch iff its date is strictly after the iteration-start `epoch` and its
type is in the watch set, `epoch` becomes `new Date(latest)`, and the
batch is yielded only when non-empty. -/
def watchStep (watchTypes : List String) (st : WatcherState) (fetch : FetchResult) :
    WatcherState × Option (List RepoEvent) :=
  match fetch with
  | .notModified => (st, none)
  | .failure => (st, none)
  | .success events newEtag pollHeader =>
      let pollInterval' := match pollHeader with
        | some v => v
        | none => 60
      let newLatest := events.foldl (fun acc e => max acc e.created_at) st.latest
      let batch := events.filter
        (fun e => decide (st.epochMs < e.created_at) && watchTypes.contains e.type)
      ({ epochMs := newLatest, latest := newLatest, etag := newEtag,
         pollInterval := pollInterval' },
       if 0 < batch.length then some batch else none)

/-- The watcher state at the start of iteration `i`, given the initial
state and the trace of fetch outcomes. -/
def stateAfter (watchTypes : List String) (st0 : WatcherState)
    (fs : List FetchResult) (i : Nat) : WatcherState :=
  (fs.take i).foldl (fun s f => (watchStep watchTypes s f).1) st0

/-- The batch emitted by iteration `i` (`none` when nothing was yielded or
the trace is shorter than `i`). -/
def batchAt (watchTypes : List String) (st0 : WatcherState)
    (fs : List FetchResult) (i : Nat) : Option (List RepoEvent) :=
  match fs[i]? with
  | some f => (watchStep watchTypes (stateAfter watchTypes st0 fs i) f).2
  | none => none

/-- `latest` and `epoch.getTime()` agree: true of the initial state and
preserved by every iteration. -/
def Synced (st : WatcherState) : Prop := st.latest = st.epochMs

theorem synced_mkInitialState (epochMs : Int) : Synced (mkInitialState epochMs) := rfl

theorem synced_watchStep (watchTypes : List String) (st : WatcherState)
    (f : FetchResult) (h : Synced st) : Synced ((watchStep watchTypes st f).1) := by
  cases f <;> simp [watchStep, Synced] at h ⊢ <;> exact h

/-- The folded maximum is at least its seed. -/
theorem le_foldl_max (l : List RepoEvent) (init : Int) :
    init ≤ l.foldl (fun acc e => max acc e.created_at) init := by
  induction l generalizing init with
  | nil => exact le_refl _
  | cons e rest ih =>
      exact le_trans (le_max_left _ _) (ih (max init e.created_at))

/-- The folded maximum dominates every listed timestamp. -/
theorem mem_le_foldl_max (l : List RepoEvent) (init : Int) (e : RepoEvent)
    (h : e ∈ l) : e.created_at ≤ l.foldl (fun acc e => max acc e.created_at) init := by
  induction l generalizing init with
  | nil => cases h
  | cons a rest ih =>
      cases h with
      | head => exact le_trans (le_max_right _ _) (le_foldl_max rest _)
      | tail _ h2 => exact ih (max init a.created_at) h2

/-- The folded maximum is the seed or one of the listed timestamps. -/
theorem foldl_max_eq_or (l : List RepoEvent) (init : Int) :
    l.foldl (fun acc e => max acc e.created_at) init = init ∨
      ∃ e ∈ l, l.foldl (fun acc e => max acc e.created_at) init = e.created_at := by
  induction l generalizing init with
  | nil => exact Or.inl rfl
  | cons a rest ih =>
      rcases ih (max init a.created_at) with h | ⟨e, he, h⟩
      · rcases max_choice init a.created_at with hm | hm
        · exact Or.inl (h.trans hm)
        · exact Or.inr ⟨a, List.mem_cons_self a rest, h.trans hm⟩
      · exact Or.inr ⟨e, List.mem_cons_of_mem a he, h⟩

theorem watchStep_epoch_mono (watchTypes : List String) (st : WatcherState)
    (f : FetchResult) (h : Synced st) :
    st.epochMs ≤ ((watchStep watchTypes st f).1).epochMs := by
  cases f with
  | notModified => exact le_refl _
  | failure => exact le_refl _
  | success events newEtag pollHeader =>
      have h2 : st.latest = st.epochMs := h
      have h3 : st.epochMs ≤ events.foldl (fun acc e => max acc e.created_at) st.latest :=
        h2 ▸ le_foldl_max events st.latest
      simpa [watchStep] using h3

/-- Folding the loop body over any prefix of the trace preserves the
`latest = epochMs` synchronisation. -/
theorem synced_foldl (watchTypes : List String) (l : List FetchResult)
    (st : WatcherState) (h : Synced st) :
    Synced (l.foldl (fun s f => (watchStep watchTypes s f).1) st) := by
  induction l generalizing st with
  | nil => exact h
  | cons f rest ih => exact ih _ (synced_watchStep watchTypes st f h)

/-- Folding the loop body over any trace can only raise the watermark. -/
theorem epoch_mono_foldl (watchTypes : List String) (l : List FetchResult)
    (st : WatcherState) (h : Synced st) :
    st.epochMs ≤ (l.foldl (fun s f => (watchStep watchTypes s f).1) st).epochMs := by
  induction l generalizing st with
  | nil => exact le_refl _
  | cons f rest ih =>
      exact le_trans (watchStep_epoch_mono watchTypes st f h)
        (ih _ (synced_watchStep watchTypes st f h))

theorem synced_stateAfter (watchTypes : List String) (epoch0 : Int)
    (fs : List FetchResult) (i : Nat) :
    Synced (stateAfter watchTypes (mkInitialState epoch0) fs i) :=
  synced_foldl watchTypes (fs.take i) (mkInitialState epoch0) rfl

/-- A later iteration never sees a smaller watermark. -/
theorem stateAfter_epoch_mono (watchTypes : List String) (epoch0 : Int)
    (fs : List FetchResult) (i j : Nat) (hij : i ≤ j) :
    (stateAfter watchTypes (mkInitialState epoch0) fs i).epochMs ≤
      (stateAfter watchTypes (mkInitialState epoch0) fs j).epochMs := by
  have hj : j = i + (j - i) := (Nat.add_sub_cancel' hij).symm
  rw [stateAfter, stateAfter, hj, List.take_add, List.foldl_append]
  exact epoch_mono_foldl watchTypes _ _ (synced_stateAfter watchTypes epoch0 fs i)

/-- Unfolding one iteration: the state at `i + 1` is one step applied to
the state at `i` whenever the trace has an iteration `i`. -/
theorem stateAfter_succ (watchTypes : List String) (st0 : WatcherState)
    (fs : List FetchResult) (i : Nat) (f : FetchResult) (hf : fs[i]? = some f) :
    stateAfter watchTypes st0 fs (i + 1) =
      (watchStep watchTypes (stateAfter watchTypes st0 fs i) f).1 := by
  rw [stateAfter, stateAfter, List.take_succ, hf, List.foldl_append]
  rfl

/-- Everything in an emitted batch is strictly newer than the watermark at
the start of the iteration, and its type is in the watch set. -/
theorem watchStep_batch_strict (watchTypes : List String) (st : WatcherState)
    (f : FetchResult) (b : List RepoEvent) (hb : (watchStep watchTypes st f).2 = some b)
    (e : RepoEvent) (he : e ∈ b) :
    st.epochMs < e.created_at ∧ watchTypes.contains e.type = true := by
  cases f with
  | notModified => simp [watchStep] at hb
  | failure => simp [watchStep] at hb
  | success events newEtag pollHeader =>
      simp only [watchStep] at hb
      split at hb
      · cases hb
        have h2 := (List.mem_filter.mp he).2
        simp only [Bool.and_eq_true, decide_eq_true_eq] at h2
        exact h2
      · cases hb

/-- Everything in an emitted batch is covered by the watermark at the end
of the emitting iteration. -/
theorem watchStep_batch_le_new_epoch (watchTypes : List String) (st : WatcherState)
    (f : FetchResult) (b : List RepoEvent) (hb : (watchStep watchTypes st f).2 = some b)
    (e : RepoEvent) (he : e ∈ b) :
    e.created_at ≤ ((watchStep watchTypes st f).1).epochMs := by
  cases f with
  | notModified => simp [watchStep] at hb
  | failure => simp [watchStep] at hb
  | success events newEtag pollHeader =>
      simp only [watchStep] at hb
      split at hb
      · cases hb
        have h2 := (List.mem_filter.mp he).1
        simpa [watchStep] using mem_le_foldl_max events st.latest e h2
      · cases hb

/-- C1: across any run of `watchForEvents` the watermark is monotonically
non-decreasing, every event in an emitted batch is strictly newer than the
watermark in effect at the start of the emitting iteration, and no event
appears in the batches of two different iterations. -/
theorem C1_watcher_watermark_invariants (watchTypes : List String) (epoch0 : Int)
    (fs : List FetchResult) :
    (∀ i j, i ≤ j →
      (stateAfter watchTypes (mkInitialState epoch0) fs i).epochMs ≤
        (stateAfter watchTypes (mkInitialState epoch0) fs j).epochMs) ∧
    (∀ i b e, batchAt watchTypes (mkInitialState epoch0) fs i = some b → e ∈ b →
      (stateAfter watchTypes (mkInitialState epoch0) fs i).epochMs < e.created_at) ∧
    (∀ i j bi bj e, i < j →
      batchAt watchTypes (mkInitialState epoch0) fs i = some bi →
      batchAt watchTypes (mkInitialState epoch0) fs j = some bj →
      e ∈ bi → e ∉ bj) := by
  refine ⟨stateAfter_epoch_mono watchTypes epoch0 fs, ?_, ?_⟩
  · intro i b e hb he
    simp only [batchAt] at hb
    cases hfi : fs[i]? with
    | none => rw [hfi] at hb; cases hb
    | some f =>
        rw [hfi] at hb
        exact (watchStep_batch_strict watchTypes _ f b hb e he).1
  · intro i j bi bj e hij hbi hbj hei hej
    simp only [batchAt] at hbi hbj
    cases hfi : fs[i]? with
    | none => rw [hfi] at hbi; cases hbi
    | some fi =>
        rw [hfi] at hbi
        cases hfj : fs[j]? with
        | none => rw [hfj] at hbj; cases hbj
        | some fj =>
            rw [hfj] at hbj
            have h1 : e.created_at ≤
                (stateAfter watchTypes (mkInitialState epoch0) fs (i + 1)).epochMs := by
              rw [stateAfter_succ watchTypes _ fs i fi hfi]
              exact watchStep_batch_le_new_epoch watchTypes _ fi bi hbi e hei
            have h2 := stateAfter_epoch_mono watchTypes epoch0 fs (i + 1) j hij
            have h3 := (watchStep_batch_strict watchTypes _ fj bj hbj e hej).1
            exact lt_irrefl _ (lt_of_le_of_lt (le_trans h1 h2) h3)

/-- Witness for C1 on a concrete two-iteration trace: the event with
timestamp 5 is emitted by iteration 0 and kept out of iteration 1's batch
even though the server re-sent it. -/
theorem C1_watcher_watermark_invariants_witness :
    (stateAfter ["IssuesEvent"] (mkInitialState 0)
        [FetchResult.success [⟨1, "IssuesEvent", 5⟩] none none,
         FetchResult.success [⟨1, "IssuesEvent", 5⟩, ⟨2, "IssuesEvent", 7⟩] none none]
        0).epochMs ≤
      (stateAfter ["IssuesEvent"] (mkInitialState 0)
        [FetchResult.success [⟨1, "IssuesEvent", 5⟩] none none,
         FetchResult.success [⟨1, "IssuesEvent", 5⟩, ⟨2, "IssuesEvent", 7⟩] none none]
        1).epochMs ∧
    (stateAfter ["IssuesEvent"] (mkInitialState 0)
        [FetchResult.success [⟨1, "IssuesEvent", 5⟩] none none,
         FetchResult.success [⟨1, "IssuesEvent", 5⟩, ⟨2, "IssuesEvent", 7⟩] none none]
        0).epochMs < (5 : Int) ∧
    (⟨1, "IssuesEvent", 5⟩ : RepoEvent) ∉ [(⟨2, "IssuesEvent", 7⟩ : RepoEvent)] :=
  ⟨(C1_watcher_watermark_invariants ["IssuesEvent"] 0
      [FetchResult.success [⟨1, "IssuesEvent", 5⟩] none none,
       FetchResult.success [⟨1, "IssuesEvent", 5⟩, ⟨2, "IssuesEvent", 7⟩] none none]).1
      0 1 (by decide),
   (C1_watcher_watermark_invariants ["IssuesEvent"] 0
      [FetchResult.success [⟨1, "IssuesEvent", 5⟩] none none,
       FetchResult.success [⟨1, "IssuesEvent", 5⟩, ⟨2, "IssuesEvent", 7⟩] none none]).2.1
      0 [⟨1, "IssuesEvent", 5⟩] ⟨1, "IssuesEvent", 5⟩ (by decide) (by decide),
   (C1_watcher_watermark_invariants ["IssuesEvent"] 0
      [FetchResult.success [⟨1, "IssuesEvent", 5⟩] none none,
       FetchResult.success [⟨1, "IssuesEvent", 5⟩, ⟨2, "IssuesEvent", 7⟩] none none]).2.2
      0 1 [⟨1, "IssuesEvent", 5⟩] [⟨2, "IssuesEvent", 7⟩] ⟨1, "IssuesEvent", 5⟩
      (by decide) (by decide) (by decide) (by decide)⟩

/-- C2: an HTTP 304 (cache-hit) iteration is a complete no-op: the state
(watermark, etag caching token, poll interval) is unchanged and no batch
is emitted. -/
theorem C2_unchanged_is_noop (watchTypes : List String) (st : WatcherState) :
    watchStep watchTypes st FetchResult.notModified = (st, none) ∧
    (watchStep watchTypes st FetchResult.notModified).1.epochMs = st.epochMs ∧
    (watchStep watchTypes st FetchResult.notModified).1.etag = st.etag :=
  ⟨rfl, rfl, rfl⟩

/-- C3: a successful (non-304) fetch sets the watermark to the maximum of
its old value and the timestamps of every event on the page — filtered or
not, old or new — never to wall-clock time (the new watermark is always
the old one or some event's timestamp), and an empty page leaves it
unchanged.  The watermark computation is independent of the interest set. -/
theorem C3_success_watermark_is_max (watchTypes : List String) (st : WatcherState)
    (events : List RepoEvent) (newEtag : Option String) (pollHeader : Option Nat)
    (h : Synced st) :
    ((watchStep watchTypes st (FetchResult.success events newEtag pollHeader)).1.epochMs =
      events.foldl (fun acc e => max acc e.created_at) st.epochMs) ∧
    (events = [] →
      (watchStep watchTypes st (FetchResult.success events newEtag pollHeader)).1.epochMs =
        st.epochMs) ∧
    (∀ e ∈ events, e.created_at ≤
      (watchStep watchTypes st (FetchResult.success events newEtag pollHeader)).1.epochMs) ∧
    ((watchStep watchTypes st (FetchResult.success events newEtag pollHeader)).1.epochMs =
        st.epochMs ∨
      ∃ e ∈ events,
        (watchStep watchTypes st (FetchResult.success events newEtag pollHeader)).1.epochMs =
          e.created_at) ∧
    (∀ watchTypes' : List String,
      (watchStep watchTypes' st (FetchResult.success events newEtag pollHeader)).1.epochMs =
        (watchStep watchTypes st (FetchResult.success events newEtag pollHeader)).1.epochMs) := by
  have h2 : st.latest = st.epochMs := h
  refine ⟨?_, ?_, ?_, ?_, ?_⟩
  · simp only [watchStep, h2]
  · intro he
    subst he
    simp only [watchStep, List.foldl_nil]
    exact h2
  · intro e he
    simpa [watchStep] using mem_le_foldl_max events st.latest e he
  · have h3 := foldl_max_eq_or events st.latest
    rw [h2] at h3
    simpa [watchStep, h2] using h3
  · intro watchTypes'
    simp only [watchStep]

/-- Witness for C3 at a concrete state and page. -/
theorem C3_success_watermark_is_max_witness :
    Synced (mkInitialState 2) ∧
    (watchStep [] (mkInitialState 2)
        (FetchResult.success [⟨1, "WatchEvent", 9⟩] (some "t") (some 30))).1.epochMs =
      [(⟨1, "WatchEvent", 9⟩ : RepoEvent)].foldl
        (fun acc e => max acc e.created_at) (mkInitialState 2).epochMs :=
  ⟨rfl,
   (C3_success_watermark_is_max [] (mkInitialState 2) [⟨1, "WatchEvent", 9⟩]
      (some "t") (some 30) rfl).1⟩

/-- Counterexample to C4: the very first iteration's fetch fails, and the
loop `continue`s straight to the next sleep without re-deriving the poll
interval: the state (in particular `pollInterval = 0`) is completely
unchanged, and the interval is not the claimed default of 60 seconds. -/
theorem C4_counterexample_failure_skips_interval_derivation :
    watchStep [] (mkInitialState 0) FetchResult.failure = (mkInitialState 0, none) ∧
    (watchStep [] (mkInitialState 0) FetchResult.failure).1.pollInterval = 0 ∧
    (watchStep [] (mkInitialState 0) FetchResult.failure).1.pollInterval ≠ 60 :=
  ⟨rfl, rfl, by decide⟩

/-- C4 (amended): `pollIntervalSeconds` is re-derived — from the
`x-poll-interval` header when present, else defaulted to 60 — only by
iterations whose fetch succeeds; an iteration whose fetch hits the 304
cache path or a recoverable failure skips the derivation and the next
sleep reuses the previous interval (0 before the first success).  The very
first sleep is 0 seconds. -/
theorem C4_amended_poll_interval (watchTypes : List String) (st : WatcherState)
    (events : List RepoEvent) (newEtag : Option String) (v : Nat) (epoch0 : Int) :
    (watchStep watchTypes st (FetchResult.success events newEtag (some v))).1.pollInterval
        = v ∧
    (watchStep watchTypes st (FetchResult.success events newEtag none)).1.pollInterval
        = 60 ∧
    (watchStep watchTypes st FetchResult.notModified).1.pollInterval = st.pollInterval ∧
    (watchStep watchTypes st FetchResult.failure).1.pollInterval = st.pollInterval ∧
    (mkInitialState epoch0).pollInterval = 0 :=
  ⟨rfl, rfl, rfl, rfl, rfl⟩

/- ## The issue resolver (`mapGitHubIssue`, github.ts lines 44-103) -/

inductive GitHubLinkType where
  | Issue
  | PullRequest
deriving DecidableEq, Repr

/-- The `state` field of a GitHub issue, `"open" | "closed"` in the
source (`open_` because `open` is a Lean keyword). -/
inductive IssueState where
  | open_
  | closed
deriving DecidableEq, Repr

/-- The GitHub `state_reason` values; the absent (`null`) case is
modelled as `Option.none` at the use sites. -/
inductive StateReason where
  | completed
  | not_planned
  | reopened
deriving DecidableEq, Repr

/-- The fields of `issue.data` that `mapGitHubIssue` reads.  The
`pull_request` field is an object whose presence marks a PR; the code
only uses its truthiness, so it is modelled as `Bool`. -/
structure IssueData where
  number : Nat
  title : List Char
  html_url : List Char
  state : IssueState
  state_reason : Option StateReason
  locked : Bool
  pull_request : Bool
deriving DecidableEq, Repr

/-- The status-glyph IIFE inside `mapGitHubIssue` (github.ts 78-101),
branch for branch.  The `"☑️️"` literal for a completed issue carries a
doubled variation selector exactly as in the source. -/
def emoji (d : IssueData) : String :=
  if d.pull_request then
    if d.state_reason = some StateReason.completed then "✅"
    else if d.state_reason = some StateReason.not_planned then "🚫"
    else "🛠️"
  else if d.state_reason = some StateReason.completed then "☑️️"
  else if d.state_reason = some StateReason.not_planned then "❌"
  else if d.state = IssueState.open_ then "⬜"
  else if d.locked then "🔒"
  else "✅"

/-- The `GitHubLink` interface (github.ts 13-20). -/
structure GitHubLink where
  type : GitHubLinkType
  url : List Char
  title : List Char
  state : IssueState
  emoji : String
  number : Nat
deriving DecidableEq, Repr

/-- The record `mapGitHubIssue` builds from a successful lookup
(github.ts 72-102). -/
def mkGitHubLink (d : IssueData) : GitHubLink :=
  { number := d.number
    title := d.title
    url := d.html_url
    type := if d.pull_request then GitHubLinkType.PullRequest else GitHubLinkType.Issue
    state := d.state
    emoji := emoji d }

/-- The outcome of the `issues.get` call: a successful response, or a
thrown error whose `status` field (if it is an HTTP error at all) is
carried as an `Option Nat`. -/
inductive LookupResult where
  | success (data : IssueData)
  | failure (status : Option Nat)
deriving DecidableEq, Repr

inductive LogLevel where
  | debug
  | warn
deriving DecidableEq, Repr

/-- What one `mapGitHubIssue` call did: the returned link (`none` models
`undefined`), whether the network was consulted, and at which level (if
any) a message was logged. -/
structure MapOutcome where
  link : Option GitHubLink
  networkCalled : Bool
  log : Option LogLevel
deriving DecidableEq, Repr

/-- `mapGitHubIssue` (github.ts 44-103): non-positive numbers are
rejected before any network use; a caught error yields `undefined` with a
debug log for a definitive 404 and a warning otherwise; a successful
response is mapped to a `GitHubLink`.  The function is total — every
thrown error is caught inside, so no exception reaches the caller. -/
def mapGitHubIssue (number : Int) (fetch : LookupResult) : MapOutcome :=
  if number ≤ 0 then
    { link := none, networkCalled := false, log := none }
  else
    match fetch with
    | LookupResult.success d =>
        { link := some (mkGitHubLink d), networkCalled := true, log := none }
    | LookupResult.failure status =>
        if status = some 404 then
          { link := none, networkCalled := true, log := some LogLevel.debug }
        else
          { link := none, networkCalled := true, log := some LogLevel.warn }

/- ### The spec's glyph precedence table, for C5 -/

/-- The abstract status glyphs named by the spec's table. -/
inductive Glyph where
  | done
  | rejected
  | inProgress
  | pending
  | locked
deriving DecidableEq, Repr

/-- The spec's glyph precedence table, first match winning, read as the
deliberate fallback chain the spec demands: PR rows first (closed-as-
completed, closed-as-not-planned, otherwise), then issue rows
(closed-as-completed, closed-as-not-planned, open, closed + locked,
final fallback).  "Closed as completed" / "closed as not planned" are
GitHub's names for the `state_reason` values. -/
def specGlyph (d : IssueData) : Glyph :=
  if d.pull_request then
    if d.state_reason = some StateReason.completed then Glyph.done
    else if d.state_reason = some StateReason.not_planned then Glyph.rejected
    else Glyph.inProgress
  else
    if d.state_reason = some StateReason.completed then Glyph.done
    else if d.state_reason = some StateReason.not_planned then Glyph.rejected
    else if d.state = IssueState.open_ then Glyph.pending
    else if d.locked then Glyph.locked
    else Glyph.done

/-- The abstract glyph each concrete emoji of the source denotes ("✅"
and "☑️️" are both "done" marks; the source uses "☑️️" for a completed
issue and "✅" for a PR or for the closed-unlocked-no-reason fallback). -/
def emojiGlyph (s : String) : Option Glyph :=
  if s = "✅" ∨ s = "☑️️" then some Glyph.done
  else if s = "🚫" ∨ s = "❌" then some Glyph.rejected
  else if s = "🛠️" then some Glyph.inProgress
  else if s = "⬜" then some Glyph.pending
  else if s = "🔒" then some Glyph.locked
  else none

/-- The source's emoji chain computes exactly the spec's precedence
table, glyph for glyph. -/
theorem emoji_eq_specGlyph (d : IssueData) :
    emojiGlyph (emoji d) = some (specGlyph d) := by
  obtain ⟨n, t, u, st, sr, lk, pr⟩ := d
  cases pr <;> rcases sr with _ | r <;> try cases r
  all_goals cases st <;> cases lk <;> rfl

/-- C5: for every successful lookup, the status glyph of the link
returned by `mapGitHubIssue` is exactly the one the spec's precedence
table assigns (first match winning), and the PR/issue kind follows the
presence of the `pull_request` field. -/
theorem C5_resolver_glyph_table (n : Int) (d : IssueData) (l : GitHubLink)
    (hn : 0 < n) (hl : (mapGitHubIssue n (LookupResult.success d)).link = some l) :
    emojiGlyph l.emoji = some (specGlyph d) ∧
    (l.type = GitHubLinkType.PullRequest ↔ d.pull_request = true) := by
  have hne : ¬ n ≤ 0 := not_le.mpr hn
  simp only [mapGitHubIssue, if_neg hne] at hl
  injection hl with h
  subst h
  refine ⟨emoji_eq_specGlyph d, ?_⟩
  simp only [mkGitHubLink]
  cases hpr : d.pull_request <;> simp

/-- Witness for C5: an open, unlocked, reason-less issue resolves to the
"pending" glyph. -/
theorem C5_resolver_glyph_table_witness :
    (0 : Int) < 7 ∧
    emojiGlyph (mkGitHubLink
        ⟨4521, "Crash".data, "u".data, IssueState.open_, none, false, false⟩).emoji =
      some (specGlyph
        ⟨4521, "Crash".data, "u".data, IssueState.open_, none, false, false⟩) ∧
    specGlyph ⟨4521, "Crash".data, "u".data, IssueState.open_, none, false, false⟩ =
      Glyph.pending :=
  ⟨by decide,
   (C5_resolver_glyph_table 7
      ⟨4521, "Crash".data, "u".data, IssueState.open_, none, false, false⟩
      (mkGitHubLink ⟨4521, "Crash".data, "u".data, IssueState.open_, none, false, false⟩)
      (by decide) rfl).1,
   rfl⟩

/-- C6: `mapGitHubIssue` returns absent with no network call for every
number ≤ 0; a definitive 404 yields absent with a debug-level log; any
other failure yields absent with a warning-level log; a link is present
only for a successful response (the function is total, so no exception
ever reaches the caller). -/
theorem C6_resolver_error_handling (n : Int) (fetch : LookupResult) (s : Option Nat) :
    (n ≤ 0 → mapGitHubIssue n fetch =
      { link := none, networkCalled := false, log := none }) ∧
    (0 < n → mapGitHubIssue n (LookupResult.failure (some 404)) =
      { link := none, networkCalled := true, log := some LogLevel.debug }) ∧
    (0 < n → s ≠ some 404 → mapGitHubIssue n (LookupResult.failure s) =
      { link := none, networkCalled := true, log := some LogLevel.warn }) ∧
    ((mapGitHubIssue n fetch).link.isSome = true →
      ∃ d, fetch = LookupResult.success d) := by
  refine ⟨?_, ?_, ?_, ?_⟩
  · intro hle
    simp [mapGitHubIssue, if_pos hle]
  · intro hn
    simp [mapGitHubIssue, if_neg (not_le.mpr hn)]
  · intro hn hs
    simp [mapGitHubIssue, if_neg (not_le.mpr hn), if_neg hs]
  · intro hsome
    by_cases hle : n ≤ 0
    · simp [mapGitHubIssue, if_pos hle] at hsome
    · cases fetch with
      | success d => exact ⟨d, rfl⟩
      | failure s2 =>
          by_cases h4 : s2 = some 404 <;>
            simp [mapGitHubIssue, if_neg hle, h4] at hsome

/-- Witness for C6 at concrete inputs: a non-positive number, a 404
failure, and a 500 failure. -/
theorem C6_resolver_error_handling_witness :
    ((-3 : Int) ≤ 0 ∧ mapGitHubIssue (-3) (LookupResult.failure none) =
      { link := none, networkCalled := false, log := none }) ∧
    ((0 : Int) < 5 ∧ mapGitHubIssue 5 (LookupResult.failure (some 404)) =
      { link := none, networkCalled := true, log := some LogLevel.debug }) ∧
    ((0 : Int) < 5 ∧ (some 500 : Option Nat) ≠ some 404 ∧
      mapGitHubIssue 5 (LookupResult.failure (some 500)) =
        { link := none, networkCalled := true, log := some LogLevel.warn }) :=
  ⟨⟨by decide,
    (C6_resolver_error_handling (-3) (LookupResult.failure none) none).1 (by decide)⟩,
   ⟨by decide,
    (C6_resolver_error_handling 5 (LookupResult.failure (some 404)) none).2.1 (by decide)⟩,
   ⟨by decide, by decide,
    (C6_resolver_error_handling 5 (LookupResult.failure (some 500)) (some 500)).2.2.1
      (by decide) (by decide)⟩⟩

/- ## The issue-number extractor (`extractIssueNumbers`, github.ts 179-203) -/

/-- JavaScript `\w`: ASCII letters, ASCII digits, underscore. -/
def wordChar (c : Char) : Bool := c.isAlphanum || c == '_'

/-- `parseInt` on a run of decimal digits. -/
def digitsVal (ds : List Char) : Nat :=
  ds.foldl (fun a c => a * 10 + (c.toNat - 48)) 0

/-- The lookbehind `(?<=(?:\b| |^|\n))` evaluated at the position of the
`#`.  Since `#` is a non-word character, the `\b` alternative holds
exactly when the preceding character is a word character; the other
alternatives accept a preceding space, start of input, or a preceding
newline. -/
def lookbehindOk (s : List Char) (i : Nat) : Bool :=
  match i with
  | 0 => true
  | j + 1 =>
      match s[j]? with
      | some c => wordChar c || c == ' ' || c == '\n'
      | none => false

/-- The trailing `\b` after the digit run: the next character must be a
non-word character, or the input must end.  (Backtracking inside
`\d{3,}\b` can never succeed after shrinking the run, because `\b`
between two digits is always false, so the regex matches exactly the
maximal digit run with this boundary test after it.) -/
def boundaryOk : List Char → Bool
  | [] => true
  | c :: _ => !wordChar c

/-- One attempt of `/(?<=(?:\b| |^|\n))#(\d{3,})\b/` at position `i`:
on success, returns the cursor after the match (`regex.lastIndex`) and
the `parseInt` value of the captured digits. -/
def matchAt (s : List Char) (i : Nat) : Option (Nat × Nat) :=
  if s[i]? = some '#' ∧ lookbehindOk s i = true then
    let ds := (s.drop (i + 1)).takeWhile (fun c => c.isDigit)
    if 3 ≤ ds.length ∧ boundaryOk ((s.drop (i + 1)).dropWhile (fun c => c.isDigit)) = true
    then some (i + 1 + ds.length, digitsVal ds)
    else none
  else none

/-- `regex.exec` from cursor `i`: the leftmost match starting at or after
`i`.  The fuel argument bounds the scan at `s.length + 1 - i` start
positions, which `findFrom` supplies. -/
def findFromAux (s : List Char) : Nat → Nat → Option (Nat × Nat × Nat)
  | 0, _ => none
  | fuel + 1, i =>
      if s.length < i then none
      else
        match matchAt s i with
        | some (e, v) => some (i, e, v)
        | none => findFromAux s fuel (i + 1)

def findFrom (s : List Char) (i : Nat) : Option (Nat × Nat × Nat) :=
  findFromAux s (s.length + 1 - i) i

/-- The `while ((match = regex.exec(input)) !== null)` loop of
`extractIssueNumbers`, with the source's zero-width-match guard
(`if (match.index === regex.lastIndex) regex.lastIndex++`) and the
`seen`-set deduplication.  `none` means the fuel ran out — the
termination theorem shows `s.length + 1` iterations always suffice. -/
def extractGo (s : List Char) : Nat → Nat → List Nat → Option (List Nat)
  | 0, _, _ => none
  | fuel + 1, i, seen =>
      match findFrom s i with
      | none => some []
      | some (j, e, v) =>
          let i' := if j == e then e + 1 else e
          if seen.contains v then extractGo s fuel i' seen
          else (extractGo s fuel i' (v :: seen)).map (fun rest => v :: rest)

/-- `extractIssueNumbers` itself on a code-point list. -/
def extractIssueNumbers (s : List Char) : List Nat :=
  (extractGo s (s.length + 1) 0 []).getD []

/-- The same scan without the deduplication: every match value in
scan order. -/
def rawGo (s : List Char) : Nat → Nat → Option (List Nat)
  | 0, _ => none
  | fuel + 1, i =>
      match findFrom s i with
      | none => some []
      | some (j, e, v) =>
          let i' := if j == e then e + 1 else e
          (rawGo s fuel i').map (fun rest => v :: rest)

def rawMatches (s : List Char) : List Nat :=
  (rawGo s (s.length + 1) 0).getD []

/-- First-occurrence deduplication with an explicit seen set, as the
source's `Set`-based loop performs it. -/
def dedupFirst (seen : List Nat) : List Nat → List Nat
  | [] => []
  | a :: rest =>
      if seen.contains a then dedupFirst seen rest
      else a :: dedupFirst (a :: seen) rest

/-- The spec's wording — keep each value's first occurrence, preserving
order — as a recursion: keep the head, discard its later duplicates. -/
def keepFirstOcc : List Nat → List Nat
  | [] => []
  | a :: l => a :: keepFirstOcc (l.filter (fun x => x ≠ a))
termination_by l => l.length
decreasing_by
  simp only [List.length_cons]
  exact Nat.lt_succ_of_le (List.length_filter_le _ _)

theorem takeWhile_len_le (p : Char → Bool) (l : List Char) :
    (l.takeWhile p).length ≤ l.length := by
  conv_rhs => rw [← List.takeWhile_append_dropWhile p l]
  rw [List.length_append]
  exact Nat.le_add_right _ _

/-- A successful match covers at least `#` plus three digits and stays
inside the input: the new cursor is at least `i + 4` and at most the
input length. -/
theorem matchAt_bounds (s : List Char) (i e v : Nat) (h : matchAt s i = some (e, v)) :
    i + 4 ≤ e ∧ e ≤ s.length := by
  simp only [matchAt] at h
  split at h
  case isFalse => cases h
  case isTrue h1 =>
    split at h
    case isFalse => cases h
    case isTrue h2 =>
      obtain ⟨he, hv⟩ := Prod.mk.injEq .. ▸ Option.some.inj h
      have hlt : i < s.length := (List.getElem?_eq_some.mp h1.1).1
      have hds : ((s.drop (i + 1)).takeWhile (fun c => c.isDigit)).length ≤
          s.length - (i + 1) := by
        have := takeWhile_len_le (fun c => c.isDigit) (s.drop (i + 1))
        rwa [List.length_drop] at this
      omega

/-- `exec` returns a match at or after the cursor, and it is a real match
of the pattern. -/
theorem findFromAux_some (s : List Char) (fuel : Nat) :
    ∀ i j e v, findFromAux s fuel i = some (j, e, v) →
      i ≤ j ∧ matchAt s j = some (e, v) := by
  induction fuel with
  | zero => intro i j e v h; simp [findFromAux] at h
  | succ k ih =>
      intro i j e v h
      simp only [findFromAux] at h
      split at h
      case isTrue => cases h
      case isFalse =>
        cases hm : matchAt s i with
        | some t =>
            rw [hm] at h
            obtain ⟨e', v'⟩ := t
            simp only [Option.some.injEq, Prod.mk.injEq] at h
            obtain ⟨hj, he, hv⟩ := h
            subst hj
            subst he
            subst hv
            exact ⟨le_refl _, hm⟩
        | none =>
            rw [hm] at h
            have h2 := ih (i + 1) j e v h
            exact ⟨le_trans (Nat.le_succ i) h2.1, h2.2⟩

theorem findFrom_some (s : List Char) (i j e v : Nat)
    (h : findFrom s i = some (j, e, v)) : i ≤ j ∧ matchAt s j = some (e, v) :=
  findFromAux_some s (s.length + 1 - i) i j e v h

/-- Fuel `s.length + 1 - i` always suffices for the raw scan: the cursor
strictly advances past each match, so at most `s.length + 1` iterations
can happen. -/
theorem rawGo_isSome (s : List Char) (fuel : Nat) :
    ∀ i, i ≤ s.length → s.length + 1 ≤ fuel + i → (rawGo s fuel i).isSome = true := by
  induction fuel with
  | zero => intro i h1 h2; omega
  | succ k ih =>
      intro i h1 h2
      cases hm : findFrom s i with
      | none => simp [rawGo, hm]
      | some t =>
          obtain ⟨j, e, v⟩ := t
          obtain ⟨hij, hmt⟩ := findFrom_some s i j e v hm
          obtain ⟨hje, hes⟩ := matchAt_bounds s j e v hmt
          have hbe : (j == e) = false := by simp; omega
          simp only [rawGo, hm, hbe, Bool.false_eq_true, if_false, Option.isSome_map']
          exact ih e hes (by omega)

/-- The loop with in-line deduplication computes exactly the raw scan
followed by first-occurrence deduplication against the seen set. -/
theorem extractGo_eq_rawGo (s : List Char) (fuel : Nat) :
    ∀ i seen, extractGo s fuel i seen = (rawGo s fuel i).map (dedupFirst seen) := by
  induction fuel with
  | zero => intro i seen; rfl
  | succ k ih =>
      intro i seen
      cases hm : findFrom s i with
      | none => simp [extractGo, rawGo, hm, dedupFirst]
      | some t =>
          obtain ⟨j, e, v⟩ := t
          simp only [extractGo, rawGo, hm]
          rw [ih, ih, Option.map_map, Option.map_map]
          cases hv : seen.contains v with
          | true =>
              have hv2 : v ∈ seen := by simpa using hv
              rw [if_pos rfl]
              cases hr : rawGo s k (if j == e then e + 1 else e) with
              | none => rfl
              | some l =>
                  simp only [Option.map_some', Function.comp_apply, Option.some.injEq]
                  simp [dedupFirst, hv2]
          | false =>
              have hv2 : v ∉ seen := by simpa using hv
              rw [if_neg (by simp)]
              cases hr : rawGo s k (if j == e then e + 1 else e) with
              | none => rfl
              | some l =>
                  simp only [Option.map_some', Function.comp_apply, Option.some.injEq]
                  simp [dedupFirst, hv2]

/-- Deduplicating against `seen` is first-occurrence keeping after
removing everything already seen. -/
theorem dedupFirst_eq_keepFirstOcc (l : List Nat) :
    ∀ seen, dedupFirst seen l = keepFirstOcc (l.filter (fun x => !seen.contains x)) := by
  induction l with
  | nil => intro seen; simp [dedupFirst, keepFirstOcc]
  | cons a rest ih =>
      intro seen
      cases hv : seen.contains a with
      | true =>
          have hv2 : a ∈ seen := by simpa using hv
          have hL : dedupFirst seen (a :: rest) = dedupFirst seen rest := by
            simp [dedupFirst, hv2]
          have hfc : (a :: rest).filter (fun x => !seen.contains x) =
              rest.filter (fun x => !seen.contains x) := by
            simp [List.filter_cons, hv2]
          rw [hL, hfc, ih]
      | false =>
          have hv2 : a ∉ seen := by simpa using hv
          have hpt : ∀ x, (!(a :: seen).contains x) =
              (decide (x ≠ a) && !seen.contains x) := by
            intro x
            by_cases hxa : x = a <;> simp [hxa, List.contains_cons]
          have hL : dedupFirst seen (a :: rest) = a :: dedupFirst (a :: seen) rest := by
            simp [dedupFirst, hv2]
          have hfc : (a :: rest).filter (fun x => !seen.contains x) =
              a :: rest.filter (fun x => !seen.contains x) := by
            simp [List.filter_cons, hv2]
          rw [hL, hfc, keepFirstOcc, ih (a :: seen), List.filter_filter]
          exact congrArg (fun t => a :: keepFirstOcc t)
            (List.filter_congr (fun x _ => hpt x))

theorem dedupFirst_nil_eq_keepFirstOcc (l : List Nat) :
    dedupFirst [] l = keepFirstOcc l := by
  rw [dedupFirst_eq_keepFirstOcc l []]
  congr 1
  rw [show (fun x : Nat => !([] : List Nat).contains x) = (fun _ : Nat => true) from
    funext (fun x => rfl)]
  exact List.filter_true l

/-- `keepFirstOcc` does not invent or lose values. -/
theorem mem_keepFirstOcc (x : Nat) (l : List Nat) : x ∈ keepFirstOcc l ↔ x ∈ l := by
  induction l using keepFirstOcc.induct with
  | case1 => simp [keepFirstOcc]
  | case2 a l ih =>
      rw [keepFirstOcc]
      constructor
      · intro h
        rcases List.mem_cons.mp h with h | h
        · exact h ▸ List.mem_cons_self a l
        · exact List.mem_cons_of_mem a (List.mem_of_mem_filter (ih.mp h))
      · intro h
        rcases List.mem_cons.mp h with h | h
        · exact h ▸ List.mem_cons_self a _
        · by_cases hxa : x = a
          · exact hxa ▸ List.mem_cons_self a _
          · exact List.mem_cons_of_mem a (ih.mpr (List.mem_filter.mpr ⟨h, by simp [hxa]⟩))

/-- `keepFirstOcc` returns each value at most once. -/
theorem nodup_keepFirstOcc (l : List Nat) : (keepFirstOcc l).Nodup := by
  induction l using keepFirstOcc.induct with
  | case1 => simp [keepFirstOcc]
  | case2 a l ih =>
      rw [keepFirstOcc]
      refine List.Nodup.cons ?_ ih
      intro hmem
      have := List.mem_filter.mp ((mem_keepFirstOcc a _).mp hmem)
      simp at this

/-- `keepFirstOcc` preserves the relative order of what it keeps. -/
theorem sublist_keepFirstOcc (l : List Nat) : (keepFirstOcc l).Sublist l := by
  induction l using keepFirstOcc.induct with
  | case1 => simp [keepFirstOcc]
  | case2 a l ih =>
      rw [keepFirstOcc]
      exact List.Sublist.cons₂ a (ih.trans (List.filter_sublist l))

/-- Every value the raw scan produces comes from an actual match at or
after the scan's start cursor. -/
theorem rawGo_mem (s : List Char) (fuel : Nat) :
    ∀ i l v, rawGo s fuel i = some l → v ∈ l →
      ∃ j e, i ≤ j ∧ matchAt s j = some (e, v) := by
  induction fuel with
  | zero => intro i l v h; simp [rawGo] at h
  | succ k ih =>
      intro i l v h hv
      cases hm : findFrom s i with
      | none =>
          simp only [rawGo, hm] at h
          cases h
          cases hv
      | some t =>
          obtain ⟨j, e, v'⟩ := t
          obtain ⟨hij, hmt⟩ := findFrom_some s i j e v' hm
          obtain ⟨hje, hes⟩ := matchAt_bounds s j e v' hmt
          simp only [rawGo, hm] at h
          cases hr : rawGo s k (if j == e then e + 1 else e) with
          | none => rw [hr] at h; cases h
          | some rest =>
              rw [hr] at h
              simp only [Option.map_some', Option.some.injEq] at h
              subst h
              rcases List.mem_cons.mp hv with hveq | hvrest
              · exact ⟨j, e, hij, hveq ▸ hmt⟩
              · obtain ⟨j2, e2, hj2, hm2⟩ := ih _ rest v hr hvrest
                refine ⟨j2, e2, ?_, hm2⟩
                have : i ≤ (if j == e then e + 1 else e) := by
                  split <;> omega
                omega

/-- A successful match at `i` decomposes the input as
`prefix-of-length-i ++ '#' :: digits ++ boundary-respecting-rest`, with at
least three digits whose `parseInt` value is the match value. -/
theorem matchAt_decompose (s : List Char) (i e v : Nat) (h : matchAt s i = some (e, v)) :
    ∃ pre ds post, s = pre ++ '#' :: (ds ++ post) ∧
      (∀ c ∈ ds, c.isDigit = true) ∧ 3 ≤ ds.length ∧ v = digitsVal ds ∧
      (post = [] ∨ ∃ c rest2, post = c :: rest2 ∧ wordChar c = false) := by
  simp only [matchAt] at h
  split at h
  case isFalse => cases h
  case isTrue h1 =>
    split at h
    case isFalse => cases h
    case isTrue h2 =>
      obtain ⟨he, hv⟩ := Prod.mk.injEq .. ▸ Option.some.inj h
      refine ⟨s.take i, (s.drop (i + 1)).takeWhile (fun c => c.isDigit),
              (s.drop (i + 1)).dropWhile (fun c => c.isDigit), ?_, ?_, h2.1, hv.symm, ?_⟩
      · rw [List.takeWhile_append_dropWhile]
        obtain ⟨hlt, hgv⟩ := List.getElem?_eq_some.mp h1.1
        rw [← hgv, List.getElem_cons_drop s i hlt, List.take_append_drop]
      · intro c hc
        exact List.mem_takeWhile_imp hc
      · cases hdw : (s.drop (i + 1)).dropWhile (fun c => c.isDigit) with
        | nil => exact Or.inl rfl
        | cons c r2 =>
            right
            refine ⟨c, r2, rfl, ?_⟩
            have h3 := h2.2
            rw [hdw] at h3
            simpa [boundaryOk] using h3

/-- C8: the extraction loop terminates on every input — each match moves
the cursor strictly forward (the match starts at or after the cursor and
ends strictly after it starts, so the zero-width guard never fires), and
the loop run with `s.length + 1` iterations of fuel always completes. -/
theorem C8_extractIssueNumbers_terminates (s : List Char) :
    (∀ i j e v, findFrom s i = some (j, e, v) →
      i ≤ j ∧ j < e ∧ i < (if j == e then e + 1 else e)) ∧
    (extractGo s (s.length + 1) 0 []).isSome = true := by
  constructor
  · intro i j e v h
    obtain ⟨hij, hmt⟩ := findFrom_some s i j e v h
    obtain ⟨hje, hes⟩ := matchAt_bounds s j e v hmt
    have hbe : (j == e) = false := by simp; omega
    refine ⟨hij, by omega, ?_⟩
    rw [hbe]
    simp only [Bool.false_eq_true, if_false]
    omega
  · rw [extractGo_eq_rawGo, Option.isSome_map']
    exact rawGo_isSome s (s.length + 1) 0 (Nat.zero_le _) (by omega)

/-- Witness for C8 on a concrete input with one match. -/
theorem C8_extractIssueNumbers_terminates_witness :
    (0 ≤ 1 ∧ 1 < 5 ∧ 0 < (if (1 : Nat) == 5 then 5 + 1 else 5)) ∧
    (extractGo " #123".toList (" #123".toList.length + 1) 0 []).isSome = true :=
  ⟨(C8_extractIssueNumbers_terminates " #123".toList).1 0 1 5 123 (by decide),
   (C8_extractIssueNumbers_terminates " #123".toList).2⟩

/-- Counterexample to C7 as stated: the input `"#012"` matches the
pattern (three digits), and the returned `parseInt` value is 12, a number
with fewer than 3 digits. -/
theorem C7_counterexample_leading_zeros :
    extractIssueNumbers "#012".toList = [12] ∧ 12 < 100 := by
  constructor
  · decide
  · decide

/-- C7 (amended): `extractIssueNumbers` returns the scan's match values
with exactly the first occurrence of each value kept, in order (so the
result is duplicate-free and a sublist of the raw match sequence with the
same members); every returned number is the `parseInt` value of a matched
run of at least three digits prefixed by `#` and closed by a word
boundary (with leading zeros that value may have fewer than three
digits); and the two concrete examples behave as the spec demands. -/
theorem C7_amended_extract_properties (s : List Char) :
    extractIssueNumbers s = keepFirstOcc (rawMatches s) ∧
    (extractIssueNumbers s).Nodup ∧
    (extractIssueNumbers s).Sublist (rawMatches s) ∧
    (∀ n, n ∈ extractIssueNumbers s ↔ n ∈ rawMatches s) ∧
    (∀ n ∈ extractIssueNumbers s, ∃ pre ds post,
        s = pre ++ '#' :: (ds ++ post) ∧ (∀ c ∈ ds, c.isDigit = true) ∧
        3 ≤ ds.length ∧ n = digitsVal ds ∧
        (post = [] ∨ ∃ c rest2, post = c :: rest2 ∧ wordChar c = false)) ∧
    extractIssueNumbers "see #12 and #123 and #123".toList = [123] ∧
    extractIssueNumbers "#1234abc".toList = [] := by
  have hsome := rawGo_isSome s (s.length + 1) 0 (Nat.zero_le _) (by omega)
  obtain ⟨r, hr⟩ := Option.isSome_iff_exists.mp hsome
  have hext : extractIssueNumbers s = keepFirstOcc r := by
    rw [extractIssueNumbers, extractGo_eq_rawGo, hr]
    simp [dedupFirst_nil_eq_keepFirstOcc]
  have hraw : rawMatches s = r := by
    rw [rawMatches, hr]
    rfl
  refine ⟨?_, ?_, ?_, ?_, ?_, ?_, ?_⟩
  · rw [hext, hraw]
  · rw [hext]
    exact nodup_keepFirstOcc r
  · rw [hext, hraw]
    exact sublist_keepFirstOcc r
  · intro n
    rw [hext, hraw]
    exact mem_keepFirstOcc n r
  · intro n hn
    have hnr : n ∈ r := (mem_keepFirstOcc n r).mp (hext ▸ hn)
    obtain ⟨j, e2, _, hmt⟩ := rawGo_mem s (s.length + 1) 0 r n hr hnr
    exact matchAt_decompose s j e2 n hmt
  · decide
  · decide

/-- Witness for C7 (amended) at a concrete input. -/
theorem C7_amended_extract_properties_witness :
    123 ∈ extractIssueNumbers "#123".toList ∧
    (∃ pre ds post, "#123".toList = pre ++ '#' :: (ds ++ post) ∧
      (∀ c ∈ ds, c.isDigit = true) ∧ 3 ≤ ds.length ∧ 123 = digitsVal ds ∧
      (post = [] ∨ ∃ c rest2, post = c :: rest2 ∧ wordChar c = false)) :=
  ⟨by decide,
   (C7_amended_extract_properties "#123".toList).2.2.2.2.1 123 (by decide)⟩

/- ## HTML escaping and message construction (index.ts) -/

/-- The character class `[0-9A-Za-z ]` of `escape` in index.ts line 51. -/
def isPlainChar (c : Char) : Bool :=
  (('0' ≤ c && c ≤ '9') || ('A' ≤ c && c ≤ 'Z') || ('a' ≤ c && c ≤ 'z') || c == ' ')

def digitChar (n : Nat) : Char := Char.ofNat (48 + n)

/-- Decimal digits of `n`, most significant first, as JavaScript string
conversion renders the char code in `"&#" + c.charCodeAt(0) + ";"`. -/
def decDigitsAux : Nat → Nat → List Char → List Char
  | 0, _, acc => acc
  | fuel + 1, n, acc =>
      if n < 10 then digitChar n :: acc
      else decDigitsAux fuel (n / 10) (digitChar (n % 10) :: acc)

def decDigits (n : Nat) : List Char := decDigitsAux (n + 1) n []

/-- The numeric character reference `"&#" + code + ";"` substituted for
one escaped character. -/
def numRef (c : Char) : List Char :=
  '&' :: '#' :: (decDigits c.toNat ++ [';'])

/-- `escape` (index.ts 50-52): `s.replace(/[^0-9A-Za-z ]/g, ...)` — the
class matches one character at a time, so the global replace maps each
character independently. -/
def escape (s : List Char) : List Char :=
  s.flatMap (fun c => if isPlainChar c then [c] else numRef c)

def issueTypeName : GitHubLinkType → List Char
  | GitHubLinkType.Issue => "Issue".data
  | GitHubLinkType.PullRequest => "Pull Request".data

/-- The html-style line of `linkGitHubIssues` (index.ts 125):
`<a href="${url}">${issueType} #${number}: ${emoji} ${e(title)}</a>`. -/
def htmlLinkLine (l : GitHubLink) : List Char :=
  "<a href=\"".data ++ l.url ++ "\">".data ++ issueTypeName l.type ++
    " #".data ++ decDigits l.number ++ ": ".data ++ l.emoji.data ++
    " ".data ++ escape l.title ++ "</a>".data

/-- The html-style `IssuesEvent` line of `monitorGitHub`
(index.ts 177-179). -/
def htmlIssuesEventLine (actorLogin action : List Char) (number : Nat)
    (url title : List Char) : List Char :=
  "@".data ++ escape actorLogin ++ " ".data ++ action ++ " issue #".data ++
    decDigits number ++ ": ".data ++ "<a href=\"".data ++ url ++ "\">".data ++
    escape title ++ "</a>".data

/-- The html-style `PullRequestEvent` line of `monitorGitHub`
(index.ts 189-191). -/
def htmlPullRequestEventLine (actorLogin action : List Char) (number : Nat)
    (url title : List Char) : List Char :=
  "@".data ++ escape actorLogin ++ " ".data ++ action ++ " pull request #".data ++
    decDigits number ++ ": ".data ++ "<a href=\"".data ++ url ++ "\">".data ++
    escape title ++ "</a>".data

/-- `makeList` (index.ts 141-159): a single line verbatim, several lines
as an html `<ul>` or as asterisk bullets. -/
def makeList (html : Bool) (lines : List (List Char)) : List Char :=
  if html then
    if lines.length = 1 then lines.headD []
    else "<ul><li>".data ++ List.intercalate "</li><li>".data lines ++ "</li></ul>".data
  else
    if lines.length = 1 then lines.headD []
    else "* ".data ++ List.intercalate "\n* ".data lines

theorem digitChar_isDigit (m : Nat) (h : m < 10) : (digitChar m).isDigit = true := by
  interval_cases m <;> decide

/-- Every character of a rendered decimal number is a digit. -/
theorem decDigitsAux_chars (fuel : Nat) :
    ∀ n acc c, c ∈ decDigitsAux fuel n acc → c.isDigit = true ∨ c ∈ acc := by
  induction fuel with
  | zero => intro n acc c h; exact Or.inr h
  | succ k ih =>
      intro n acc c h
      simp only [decDigitsAux] at h
      split at h
      case isTrue hlt =>
          rcases List.mem_cons.mp h with h2 | h2
          · exact Or.inl (h2 ▸ digitChar_isDigit n hlt)
          · exact Or.inr h2
      case isFalse hge =>
          rcases ih (n / 10) (digitChar (n % 10) :: acc) c h with h2 | h2
          · exact Or.inl h2
          · rcases List.mem_cons.mp h2 with h3 | h3
            · exact Or.inl (h3 ▸ digitChar_isDigit (n % 10) (Nat.mod_lt n (by omega)))
            · exact Or.inr h3

theorem decDigits_chars (n : Nat) (c : Char) (h : c ∈ decDigits n) :
    c.isDigit = true := by
  rcases decDigitsAux_chars (n + 1) n [] c h with h2 | h2
  · exact h2
  · cases h2

/-- A digit character is in the plain class. -/
theorem isDigit_isPlain (c : Char) (h : c.isDigit = true) : isPlainChar c = true := by
  simp only [Char.isDigit, Bool.and_eq_true, decide_eq_true_eq] at h
  simp only [isPlainChar, Bool.or_eq_true, Bool.and_eq_true, decide_eq_true_eq]
  exact Or.inl (Or.inl (Or.inl ⟨h.1, h.2⟩))

/-- Every character `escape` emits is either in the plain class or one of
`&`, `#`, `;`. -/
theorem escape_chars (s : List Char) (d : Char) (h : d ∈ escape s) :
    isPlainChar d = true ∨ d = '&' ∨ d = '#' ∨ d = ';' := by
  obtain ⟨c, _, hd⟩ := List.mem_flatMap.mp h
  by_cases hp : isPlainChar c = true
  · rw [if_pos hp] at hd
    rcases List.mem_cons.mp hd with h2 | h2
    · exact Or.inl (h2 ▸ hp)
    · cases h2
  · rw [if_neg hp] at hd
    simp only [numRef] at hd
    rcases List.mem_cons.mp hd with h2 | h2
    · exact Or.inr (Or.inl h2)
    rcases List.mem_cons.mp h2 with h3 | h3
    · exact Or.inr (Or.inr (Or.inl h3))
    rcases List.mem_append.mp h3 with h4 | h4
    · exact Or.inl (isDigit_isPlain d (decDigits_chars c.toNat d h4))
    · rcases List.mem_singleton.mp h4 with h5
      exact Or.inr (Or.inr (Or.inr h5))

/-- No markup-significant character survives `escape`. -/
theorem escape_no_markup (s : List Char) :
    '<' ∉ escape s ∧ '>' ∉ escape s ∧ '"' ∉ escape s := by
  refine ⟨?_, ?_, ?_⟩ <;>
    · intro h
      rcases escape_chars s _ h with h2 | h2 | h2 | h2 <;> exact absurd h2 (by decide)

theorem escape_count_markup_zero (t : List Char) (c : Char)
    (hc : c = '<' ∨ c = '>' ∨ c = '"') : (escape t).count c = 0 := by
  obtain ⟨h1, h2, h3⟩ := escape_no_markup t
  rcases hc with rfl | rfl | rfl
  · exact List.count_eq_zero.mpr h1
  · exact List.count_eq_zero.mpr h2
  · exact List.count_eq_zero.mpr h3

/-- C9: in html style, `escape` maps every character outside
`[0-9A-Za-z ]` to its numeric character reference and keeps the rest,
distributing over concatenation; its output never contains a
markup-significant character; and in each of the three outbound html line
templates the forge-supplied title and username enter only through
`escape`, so varying them can never change the number of `<`, `>` or `"`
characters in the line — markup injection through those fragments is
impossible. -/
theorem C9_html_escape_untrusted_fragments
    (s login login2 action url title title2 : List Char)
    (l : GitHubLink) (n : Nat) (c : Char) :
    (isPlainChar c = true → escape [c] = [c]) ∧
    (isPlainChar c = false → escape [c] = numRef c) ∧
    (∀ a b : List Char, escape (a ++ b) = escape a ++ escape b) ∧
    (∀ d ∈ escape s, isPlainChar d = true ∨ d = '&' ∨ d = '#' ∨ d = ';') ∧
    ('<' ∉ escape s ∧ '>' ∉ escape s ∧ '"' ∉ escape s) ∧
    (c = '<' ∨ c = '>' ∨ c = '"' →
      (htmlLinkLine { l with title := title }).count c =
        (htmlLinkLine { l with title := title2 }).count c ∧
      (htmlIssuesEventLine login action n url title).count c =
        (htmlIssuesEventLine login2 action n url title2).count c ∧
      (htmlPullRequestEventLine login action n url title).count c =
        (htmlPullRequestEventLine login2 action n url title2).count c) := by
  refine ⟨?_, ?_, ?_, escape_chars s, escape_no_markup s, ?_⟩
  · intro hp
    simp [escape, hp]
  · intro hp
    simp [escape, hp]
  · intro a b
    simp [escape]
  · intro hc
    have h1 := escape_count_markup_zero title c hc
    have h2 := escape_count_markup_zero title2 c hc
    have h3 := escape_count_markup_zero login c hc
    have h4 := escape_count_markup_zero login2 c hc
    refine ⟨?_, ?_, ?_⟩ <;>
      simp [htmlLinkLine, htmlIssuesEventLine, htmlPullRequestEventLine,
        List.count_append, List.count_cons, h1, h2, h3, h4]

/-- Witness for C9: `<` is escaped to its numeric reference, and a title
full of markup cannot change the `<`-count of a rendered link line. -/
theorem C9_html_escape_untrusted_fragments_witness :
    escape ['<'] = numRef '<' ∧
    (htmlLinkLine ⟨GitHubLinkType.Issue, "u".data, "<script>".data,
        IssueState.open_, "⬜", 1⟩).count '<' =
      (htmlLinkLine ⟨GitHubLinkType.Issue, "u".data, [],
        IssueState.open_, "⬜", 1⟩).count '<' :=
  ⟨(C9_html_escape_untrusted_fragments "x".data "a".data "b".data "opened".data
      "u".data "<script>".data [] ⟨GitHubLinkType.Issue, "u".data, "t".data,
      IssueState.open_, "⬜", 1⟩ 1 '<').2.1 (by decide),
   ((C9_html_escape_untrusted_fragments "x".data "a".data "b".data "opened".data
      "u".data "<script>".data [] ⟨GitHubLinkType.Issue, "u".data, "t".data,
      IssueState.open_, "⬜", 1⟩ 1 '<').2.2.2.2.2 (Or.inl rfl)).1⟩

/- ## The inbound message handler (`messageHandler`, index.ts 69-85) -/

/-- The `content` object of a Matrix room event, as read by the
handler. -/
structure MsgContent where
  body : List Char
deriving DecidableEq, Repr

/-- One inbound room event: `event["sender"]` and `event["content"]`.
`content = none` models an absent or falsy `content` field (the
`!event["content"]` check). -/
structure RoomEvent where
  content : Option MsgContent
  sender : String
deriving DecidableEq, Repr

/-- The externally observable actions of the handler, in order: running
the issue-number extraction over a body, one forge lookup per extracted
number, and one outbound send. -/
inductive Effect where
  | extractNumbers (body : List Char)
  | lookup (n : Nat)
  | send (body : List Char)
deriving DecidableEq, Repr

/-- `linkGitHubIssues` (index.ts 89-139), as its effect trace: extract,
return if nothing was found, look every number up, collect the successful
links, and send the rendered html list when at least one link resolved.
The lookup oracle stands for `mapGitHubIssue`'s network result. -/
def linkGitHubIssuesEffects (body : List Char)
    (lookup : Nat → Option GitHubLink) : List Effect :=
  let issueNumbers := extractIssueNumbers body
  if issueNumbers.isEmpty then [Effect.extractNumbers body]
  else
    let githubLinks := issueNumbers.filterMap lookup
    Effect.extractNumbers body :: issueNumbers.map Effect.lookup ++
      (if githubLinks.isEmpty then []
       else [Effect.send (makeList true (githubLinks.map htmlLinkLine))])

/-- `messageHandler` (index.ts 69-85): return at once on an absent/falsy
`content`, drop the bot's own messages, otherwise run
`linkGitHubIssues`. -/
def messageHandler (botUserId : String) (ev : RoomEvent)
    (lookup : Nat → Option GitHubLink) : List Effect :=
  match ev.content with
  | none => []
  | some content =>
      if ev.sender = botUserId then []
      else linkGitHubIssuesEffects content.body lookup

/-- C10: an inbound event with an absent or falsy `content` field makes
`messageHandler` return immediately: no extraction is run, no forge
lookup is issued, and nothing is sent. -/
theorem C10_falsy_content_early_return (botUserId : String) (ev : RoomEvent)
    (lookup : Nat → Option GitHubLink) (h : ev.content = none) :
    messageHandler botUserId ev lookup = [] := by
  obtain ⟨cnt, snd⟩ := ev
  simp only at h
  subst h
  rfl

/-- Witness for C10 at a concrete event without content. -/
theorem C10_falsy_content_early_return_witness :
    (RoomEvent.mk none "alice").content = none ∧
    messageHandler "bot" (RoomEvent.mk none "alice") (fun _ => none) = [] :=
  ⟨rfl, C10_falsy_content_early_return "bot" (RoomEvent.mk none "alice")
    (fun _ => none) rfl⟩
